import Mathlib

/-!
Verification development for the container-side I/O manager
(`modal/_runtime/container_io_manager.py`).

Each Python construct relevant to the claims is embedded as an executable
Lean definition.  Python integers are modelled by `Int` (or `Nat` where the
source value is manifestly non-negative), Python strings by `String` or
`List Char`, fallible code by `Except`, and the asynchronous heartbeat /
snapshot interleaving by an explicit step relation on a state type.
-/

namespace ContainerIO

/-! ## InputSlots (source lines 212-255)

`InputSlots` is "a semaphore that allows dynamically adjusting the
concurrency".  Its mutable state is `active`, `value` (the capacity),
an optional parked waiter (modelled by a `Bool`: is a waiter parked?)
and a `closed` flag. -/

structure InputSlots where
  active : Int
  value : Int
  waiter : Bool
  closed : Bool
  deriving DecidableEq, Repr

/-- `__init__(value)`: `active = 0`, no waiter, not closed. -/
def InputSlots.init (value : Int) : InputSlots :=
  { active := 0, value := value, waiter := false, closed := false }

/-- Outcome of `InputSlots.acquire`: either the caller takes a slot
immediately, or it parks on a freshly created waiter future, or (when a
waiter is already parked) a `RuntimeError` is raised. -/
inductive AcquireOutcome where
  | acquired (s : InputSlots)
  | parked (s : InputSlots)
  | error
  deriving DecidableEq, Repr

/-- `acquire` (lines 226-233): take a slot when `active < value`, otherwise
park on a new waiter future, otherwise fail fast. -/
def InputSlots.acquire (s : InputSlots) : AcquireOutcome :=
  if s.active < s.value then .acquired { s with active := s.active + 1 }
  else if s.waiter = false then .parked { s with waiter := true }
  else .error

/-- `_wake_waiter` (lines 235-240): when `active < value` and a waiter is
parked, resolve the waiter future, clear it and take the slot on the
waiter's behalf.  (Whether the future was already cancelled only affects
the `set_result` call, not the state fields modelled here.) -/
def InputSlots._wake_waiter (s : InputSlots) : InputSlots :=
  if s.active < s.value ∧ s.waiter = true then
    { s with waiter := false, active := s.active + 1 }
  else s

/-- `release` (lines 242-244): decrement `active`, then try to wake. -/
def InputSlots.release (s : InputSlots) : InputSlots :=
  InputSlots._wake_waiter { s with active := s.active - 1 }

/-- `set_value` (lines 246-250): a no-op once closed; otherwise store the
new capacity and try to wake the parked waiter. -/
def InputSlots.set_value (s : InputSlots) (value : Int) : InputSlots :=
  if s.closed then s
  else InputSlots._wake_waiter { s with value := value }

/-- `close` (lines 252-255): set `closed`, then acquire `value` slots.
The loop bound `range(self.value)` is read before the first acquire.  The
model returns `none` when one of those acquires would have to suspend
(i.e. when outstanding holders still need to release); the pure result is
the state reached when every acquire completes immediately. -/
def InputSlots.close (s : InputSlots) : Option InputSlots :=
  (List.range s.value.toNat).foldlM
    (fun t _ =>
      match t.acquire with
      | .acquired t' => some t'
      | _ => none)
    { s with closed := true }

/-- States of the semaphore reachable through its public operations keep
this shape: a waiter is parked only while `active` has reached the
capacity.  (`acquire` parks only when `active ≥ value`, and every
operation that could make `active < value` first wakes the waiter.) -/
def InputSlots.waiterInv (s : InputSlots) : Prop :=
  s.waiter = true → s.value ≤ s.active

instance (s : InputSlots) : Decidable s.waiterInv := by
  unfold InputSlots.waiterInv; infer_instance

theorem waiterInv_init (value : Int) : (InputSlots.init value).waiterInv := by
  intro h; simp [InputSlots.init] at h

theorem waiterInv_wake (s : InputSlots) :
    (InputSlots._wake_waiter s).waiterInv := by
  unfold InputSlots.waiterInv InputSlots._wake_waiter
  by_cases hc : s.active < s.value ∧ s.waiter = true
  · simp [hc]
  · simp [hc]
    intro hw
    rcases not_and_or.mp hc with h1 | h2
    · omega
    · exact absurd hw h2

theorem waiterInv_acquire (s : InputSlots) (hs : s.waiterInv) :
    (∀ t, s.acquire = .acquired t → t.waiterInv) ∧
    (∀ t, s.acquire = .parked t → t.waiterInv) := by
  unfold InputSlots.acquire
  constructor
  · intro t ht
    by_cases hl : s.active < s.value
    · simp [hl] at ht
      intro hw
      rw [← ht] at hw
      simp at hw
      have := hs hw
      omega
    · by_cases hw2 : s.waiter = false <;> simp [hl, hw2] at ht
  · intro t ht
    by_cases hl : s.active < s.value
    · simp [hl] at ht
    · by_cases hw2 : s.waiter = false
      · simp [hl, hw2] at ht
        intro _
        rw [← ht]
        simp
        omega
      · simp [hl, hw2] at ht

theorem waiterInv_release (s : InputSlots) :
    s.release.waiterInv :=
  waiterInv_wake _

theorem waiterInv_set_value (s : InputSlots) (hs : s.waiterInv) (n : Int) :
    (s.set_value n).waiterInv := by
  unfold InputSlots.set_value
  by_cases hc : s.closed
  · simpa [hc]
  · simp [hc]
    exact waiterInv_wake _

/-! ## Manager-side concurrency control (source lines 453-474 and 1029-1041) -/

/-- The fields of `_ContainerIOManager` relevant to concurrency control. -/
structure ManagerConcurrency where
  _max_concurrency : Int
  _stop_concurrency_loop : Bool
  _input_slots : InputSlots
  deriving DecidableEq, Repr

/-- `set_input_concurrency` (lines 1029-1041): set the stop flag for the
dynamic concurrency loop, clamp to `_max_concurrency`, then
`_input_slots.set_value`. -/
def set_input_concurrency (m : ManagerConcurrency) (concurrency : Int) :
    ManagerConcurrency :=
  let m1 := { m with _stop_concurrency_loop := true }
  let c := min concurrency m1._max_concurrency
  { m1 with _input_slots := m1._input_slots.set_value c }

/-- One iteration of `_dynamic_concurrency_loop` (lines 453-474), given the
concurrency value in the control plane's response: the body runs only
while the stop flag is unset, and applies `set_value` only when the
response differs from the current value and the flag is still unset. -/
def _dynamic_concurrency_step (m : ManagerConcurrency) (resp_concurrency : Int) :
    ManagerConcurrency :=
  if m._stop_concurrency_loop = false then
    if resp_concurrency ≠ m._input_slots.value ∧ m._stop_concurrency_loop = false then
      { m with _input_slots := m._input_slots.set_value resp_concurrency }
    else m
  else m

/-! ## IOContext cancellation (source lines 130-145) -/

/-- The cancellation-related state of an `IOContext`: the `_cancel_issued`
flag, whether a `_cancel_callback` is registered, and (instrumentation for
the model) how many times the callback has been invoked. -/
structure IOContextCancel where
  _cancel_issued : Bool
  has_cancel_callback : Bool
  callback_invocations : Nat
  deriving DecidableEq, Repr

/-- `IOContext.cancel` (lines 133-145): return immediately when a
cancellation was already issued; otherwise, when a callback is registered,
set `_cancel_issued` and invoke the callback; otherwise only log. -/
def IOContextCancel.cancel (c : IOContextCancel) : IOContextCancel :=
  if c._cancel_issued then c
  else if c.has_cancel_callback then
    { c with _cancel_issued := true,
             callback_invocations := c.callback_invocations + 1 }
  else c

theorem cancel_of_issued (c : IOContextCancel) (h : c._cancel_issued = true) :
    c.cancel = c := by
  simp [IOContextCancel.cancel, h]

/-! ## Claim theorems about the semaphore, concurrency control and cancel -/

/-- Claim C9: in every semaphore state satisfying the reachable-state shape
(`waiterInv`) in which `acquire()` succeeds without parking
(`active < capacity`, not closed), the sequence `acquire(); release()`
leaves the pair `(active, capacity)` unchanged. -/
theorem C9_acquire_release_roundtrip (s t : InputSlots)
    (hinv : s.waiterInv) (hfree : s.active < s.value) (_hclosed : s.closed = false)
    (hacq : s.acquire = .acquired t) :
    t.release.active = s.active ∧ t.release.value = s.value := by
  unfold InputSlots.acquire at hacq
  simp [hfree] at hacq
  have hw : s.waiter = false := by
    cases hwv : s.waiter
    · rfl
    · exact absurd (hinv hwv) (by omega)
  subst hacq
  unfold InputSlots.release InputSlots._wake_waiter
  simp [hw]

/-- Witness for C9 at the concrete state `(active, value, waiter, closed)
= (0, 2, false, false)`. -/
theorem C9_acquire_release_roundtrip_witness :
    ((⟨1, 2, false, false⟩ : InputSlots).release.active = 0 ∧
      (⟨1, 2, false, false⟩ : InputSlots).release.value = 2) :=
  C9_acquire_release_roundtrip ⟨0, 2, false, false⟩ ⟨1, 2, false, false⟩
    (by decide) (by decide) (by decide) (by decide)

/-- Counterexample for claim C3 as stated: after `close()` the semaphore is
closed, and `set_value` then refuses a downsizing request — capacity stays
`1` after `set_value 0`. -/
theorem C3_counterexample :
    InputSlots.close (InputSlots.init 1) = some ⟨1, 1, false, true⟩ ∧
    ((⟨1, 1, false, true⟩ : InputSlots).set_value 0).value ≠ 0 := by
  decide

/-- Claim C3 (amended): in every state that is not closed, `set_value n`
updates the capacity to `n` (downsizing included) and, when the capacity
grew above `active` with a waiter parked, wakes that waiter; after
`close()` (i.e. once `closed` is set) `set_value` is a no-op. -/
theorem C3_set_value (s : InputSlots) (n : Int) :
    (s.closed = false →
      (s.set_value n).value = n ∧
      (s.active < n ∧ s.waiter = true →
        (s.set_value n).waiter = false ∧
          (s.set_value n).active = s.active + 1)) ∧
    (s.closed = true → s.set_value n = s) := by
  constructor
  · intro hc
    unfold InputSlots.set_value InputSlots._wake_waiter
    refine ⟨?_, ?_⟩
    · simp only [hc, Bool.false_eq_true, if_false]
      split <;> rfl
    · rintro ⟨hlt, hw⟩
      simp [hc, hlt, hw]
  · intro hc
    unfold InputSlots.set_value
    simp [hc]

/-- Witness for C3 at concrete states: a non-closed state with a parked
waiter and a grown capacity, and a closed state. -/
theorem C3_set_value_witness :
    ((⟨0, 0, true, false⟩ : InputSlots).set_value 1).value = 1 ∧
    ((⟨0, 0, true, false⟩ : InputSlots).set_value 1).waiter = false ∧
    ((⟨1, 1, false, true⟩ : InputSlots).set_value 0 = ⟨1, 1, false, true⟩) := by
  have h1 := C3_set_value ⟨0, 0, true, false⟩ 1
  have h2 := C3_set_value ⟨1, 1, false, true⟩ 0
  exact ⟨(h1.1 rfl).1, ((h1.1 rfl).2 (by decide)).1, h2.2 rfl⟩

/-- Counterexample for claim C10 as stated: when the input slots have been
closed (`closed = true`), `set_input_concurrency 3` leaves the capacity at
`5`, not at `min 3 10 = 3`. -/
theorem C10_counterexample :
    (set_input_concurrency ⟨10, false, ⟨1, 5, false, true⟩⟩ 3)._input_slots.value
      = 5 ∧ (5 : Int) ≠ min 3 10 := by
  decide

/-- Claim C10 (amended): provided the input slots are not closed,
`set_input_concurrency n` sets the capacity to `min n _max_concurrency`
(never `n` itself when `n` exceeds the maximum); in any state it sets the
stop flag, after which an iteration of the dynamic concurrency loop is a
no-op. -/
theorem C10_set_input_concurrency (m : ManagerConcurrency) (n : Int) :
    (m._input_slots.closed = false →
      (set_input_concurrency m n)._input_slots.value = min n m._max_concurrency ∧
      (m._max_concurrency < n →
        (set_input_concurrency m n)._input_slots.value ≠ n)) ∧
    (set_input_concurrency m n)._stop_concurrency_loop = true ∧
    (∀ r, _dynamic_concurrency_step (set_input_concurrency m n) r
      = set_input_concurrency m n) := by
  refine ⟨?_, ?_, ?_⟩
  · intro hc
    have hval : (set_input_concurrency m n)._input_slots.value
        = min n m._max_concurrency := by
      unfold set_input_concurrency InputSlots.set_value InputSlots._wake_waiter
      simp only [hc, Bool.false_eq_true, if_false]
      split <;> rfl
    refine ⟨hval, ?_⟩
    intro hlt
    rw [hval]
    have : min n m._max_concurrency = m._max_concurrency :=
      min_eq_right (le_of_lt hlt)
    omega
  · unfold set_input_concurrency
    rfl
  · intro r
    unfold _dynamic_concurrency_step
    simp [set_input_concurrency]

/-- Witness for C10 at a concrete non-closed manager state. -/
theorem C10_set_input_concurrency_witness :
    (set_input_concurrency ⟨4, false, ⟨0, 2, false, false⟩⟩ 9)._input_slots.value
        = min 9 4 ∧
    (set_input_concurrency ⟨4, false, ⟨0, 2, false, false⟩⟩ 9)._input_slots.value
        ≠ 9 ∧
    (set_input_concurrency ⟨4, false, ⟨0, 2, false, false⟩⟩ 9)._stop_concurrency_loop
        = true := by
  have h := C10_set_input_concurrency ⟨4, false, ⟨0, 2, false, false⟩⟩ 9
  exact ⟨(h.1 rfl).1, (h.1 rfl).2 (by decide), h.2.1⟩

/-- Claim C8: `IOContext.cancel` is idempotent — for every context with a
registered cancel callback (and no cancellation issued yet), a second
`cancel()` changes nothing, and across `n ≥ 1` calls the callback is
invoked exactly once. -/
theorem C8_cancel_idempotent (c : IOContextCancel) (n : Nat)
    (hcb : c.has_cancel_callback = true) (hfresh : c._cancel_issued = false)
    (hn : 1 ≤ n) :
    c.cancel.cancel = c.cancel ∧
    (IOContextCancel.cancel^[n] c).callback_invocations
      = c.callback_invocations + 1 := by
  have hc1 : c.cancel
      = ⟨true, c.has_cancel_callback, c.callback_invocations + 1⟩ := by
    simp [IOContextCancel.cancel, hfresh, hcb]
  have hfix : c.cancel.cancel = c.cancel := by
    rw [hc1]
    exact cancel_of_issued _ rfl
  refine ⟨hfix, ?_⟩
  obtain ⟨k, rfl⟩ : ∃ k, n = k + 1 := ⟨n - 1, by omega⟩
  rw [Function.iterate_succ_apply]
  rw [Function.iterate_fixed (by rw [hc1]; exact cancel_of_issued _ rfl)]
  rw [hc1]

/-- Witness for C8 at the fresh context with a registered callback and
`n = 3` cancel calls. -/
theorem C8_cancel_idempotent_witness :
    (⟨false, true, 0⟩ : IOContextCancel).cancel.cancel
        = (⟨false, true, 0⟩ : IOContextCancel).cancel ∧
    (IOContextCancel.cancel^[3] (⟨false, true, 0⟩ : IOContextCancel)).callback_invocations
        = 0 + 1 :=
  C8_cancel_idempotent ⟨false, true, 0⟩ 3 (by decide) (by decide) (by decide)

/-! ## Oversize exception repr truncation (source lines 811-818)

Python strings are modelled as `List Char`; `len` is `List.length` and
slicing `[: k]` is `List.take k`. -/

/-- The trailing note appended by the f-string
`"{repr_exc}...\nTrimmed {trimmed_bytes} bytes from original exception"`
(the part after the kept prefix). -/
def trimmedNote (trimmed_bytes : Int) : List Char :=
  "...\nTrimmed ".toList ++ (toString trimmed_bytes).toList
    ++ " bytes from original exception".toList

/-- Lines 811-818 of `handle_input_exception`, parametric in
`MAX_OBJECT_SIZE_BYTES` (imported there from `modal._utils.blob_utils`,
which is outside the embedded sources): when `len(repr_exc)` is at least
the maximum, compute `trimmed_bytes = len(repr_exc) - MAX_OBJECT_SIZE_BYTES
- 1000`, keep the first `MAX_OBJECT_SIZE_BYTES - 1000` characters and
append the trailing note. -/
def truncate_exception_repr (maxObjectSizeBytes : Nat) (repr_exc : List Char) :
    List Char :=
  if maxObjectSizeBytes ≤ repr_exc.length then
    let trimmed_bytes : Int :=
      (repr_exc.length : Int) - (maxObjectSizeBytes : Int) - 1000
    repr_exc.take (maxObjectSizeBytes - 1000) ++ trimmedNote trimmed_bytes
  else repr_exc

set_option maxRecDepth 10000 in
theorem truncate_exception_repr_of_ge (M : Nat) (r : List Char)
    (h : M ≤ r.length) :
    truncate_exception_repr M r
      = r.take (M - 1000) ++ trimmedNote ((r.length : Int) - M - 1000) := by
  simp [truncate_exception_repr, h]

/-- Claim C2 (code bug), evaluated at the failing input
`MAX_OBJECT_SIZE_BYTES = 1200` and a repr of 1200 copies of the letter a:
the kept prefix has the stated length `1200 - 1000 = 200`, so
`1200 - 200 = 1000` characters were actually trimmed, but the trailing
note reads `Trimmed -1000 bytes from original exception`, because the code
computes `len - MAX - 1000` where the number of trimmed bytes (original
length minus kept length) is `len - (MAX - 1000)`. -/
theorem C2_trimmed_bytes_bug :
    truncate_exception_repr 1200 (List.replicate 1200 'a')
      = List.replicate 200 'a' ++ trimmedNote (-1000) ∧
    (1200 : Int) - ((List.replicate 1200 'a').take (1200 - 1000)).length
      = 1000 ∧
    (-1000 : Int) ≠ 1000 := by
  refine ⟨?_, ?_, by decide⟩
  · rw [truncate_exception_repr_of_ge 1200 _ (by rw [List.length_replicate])]
    rw [List.take_replicate, List.length_replicate]
    norm_num
  · rw [List.take_replicate, List.length_replicate]
    norm_num

/-! ## Heartbeat loop scheduling (source lines 361-426) -/

/-- Outcome of one call to `_heartbeat_handle_cancellations` as observed by
`_run_heartbeat_loop`: a normal response (carrying the optional
`cancel_input_event` with its input ids), a `ClientClosed` error, or any
other (transient) exception. -/
inductive HeartbeatTickOutcome where
  | response (cancel_input_event : Option (List String))
  | clientClosed
  | failure
  deriving DecidableEq, Repr

/-- Lines 418-425: the input ids on which `IOContext.cancel()` is invoked
during the tick - ids listed in the cancel event that are present in
`current_inputs`. -/
def cancelled_inputs (current_inputs : List String)
    (cancel_input_event : Option (List String)) : List String :=
  match cancel_input_event with
  | some ids => ids.filter (fun i => current_inputs.contains i)
  | none => []

/-- Lines 418-426: `_heartbeat_handle_cancellations` returns `True` exactly
when the response has a `cancel_input_event` field - whether or not any
input id was actually cancelled. -/
def got_cancellation (cancel_input_event : Option (List String)) : Bool :=
  cancel_input_event.isSome

/-- Lines 363-400: the delay until the next tick of `_run_heartbeat_loop`
as a function of the tick's outcome, of `HEARTBEAT_INTERVAL` (a constant of
`modal.client`, outside the embedded sources) and of the tick's elapsed
duration; `none` means the loop breaks (`ClientClosed`). -/
def heartbeat_next_delay (interval elapsed : ℚ) (out : HeartbeatTickOutcome) :
    Option ℚ :=
  match out with
  | .response ev =>
      if got_cancellation ev then some 1 else some (max 0 (interval - elapsed))
  | .clientClosed => none
  | .failure => some (max 0 (interval - elapsed))

/-- Counterexample for claim C4 as stated: with `HEARTBEAT_INTERVAL = 15`,
an instantaneous tick whose response carries a cancel event for an input id
that is not in `current_inputs` issues no cancellation, yet the next tick
is scheduled after the fixed 1-second sleep, not after
`max(0, 15 - 0) = 15` seconds. -/
theorem C4_counterexample :
    cancelled_inputs [] (some ["in-1"]) = [] ∧
    heartbeat_next_delay 15 0 (.response (some ["in-1"])) = some 1 ∧
    some (1 : ℚ) ≠ some (max 0 ((15 : ℚ) - 0)) := by
  refine ⟨rfl, rfl, ?_⟩
  have h : max (0 : ℚ) (15 - 0) = 15 := by norm_num
  rw [h]
  norm_num

/-- Claim C4 (amended): if the heartbeat response carried a
`cancel_input_event` (the code's `got_cancellation`), the next tick is
scheduled after a fixed 1-second sleep - whether or not any input was
actually cancelled; otherwise (including after a transient failure) it is
scheduled `max(0, HEARTBEAT_INTERVAL - elapsed)` after the tick started,
and on `ClientClosed` the loop stops. -/
theorem C4_next_delay (interval elapsed : ℚ) (ev : Option (List String)) :
    (got_cancellation ev = true →
      heartbeat_next_delay interval elapsed (.response ev) = some 1) ∧
    (got_cancellation ev = false →
      heartbeat_next_delay interval elapsed (.response ev)
        = some (max 0 (interval - elapsed))) ∧
    heartbeat_next_delay interval elapsed .failure
      = some (max 0 (interval - elapsed)) ∧
    heartbeat_next_delay interval elapsed .clientClosed = none := by
  refine ⟨?_, ?_, rfl, rfl⟩ <;> intro h <;> simp [heartbeat_next_delay, h]

/-- Witness for C4 with `HEARTBEAT_INTERVAL = 15` and a 3-second tick:
a response carrying an (empty) cancel event gives a 1-second delay, a
response without one gives `max 0 (15 - 3)`. -/
theorem C4_next_delay_witness :
    heartbeat_next_delay 15 3 (.response (some [])) = some 1 ∧
    heartbeat_next_delay 15 3 (.response none)
      = some (max 0 ((15 : ℚ) - 3)) :=
  ⟨(C4_next_delay 15 3 (some [])).1 rfl, (C4_next_delay 15 3 none).2.1 rfl⟩

/-! ## Batched argument aggregation (source lines 147-189)

A Python value is inspected by the embedded code only through
`isinstance(data, list)`, so values are atoms (tagged by a `Nat`) or lists
of values.  A Python `dict` in insertion order is an association list with
distinct keys. -/

inductive PyVal where
  | atom (n : Nat)
  | listV (xs : List PyVal)

/-- The deserialized `(args, kwargs)` of one invocation in a batch. -/
structure FunctionInputArgs where
  args : List PyVal
  kwargs : List (String × PyVal)

/-- The three `InvalidError` raises of `_args_and_kwargs`
(lines 168-183). -/
inductive BatchArgsError where
  | wrongArgCount
  | unexpectedKeyword (k : String)
  | multipleValues (k : String)
  deriving DecidableEq, Repr

/-- One step of the kwargs loop (lines 175-184): reject a keyword that is
not a parameter name, reject a parameter that already has a value
(assigned positionally or by an earlier keyword), otherwise record it. -/
def addKwarg (param_names : List String) (acc : List (String × PyVal))
    (kv : String × PyVal) : Except BatchArgsError (List (String × PyVal)) :=
  if kv.1 ∉ param_names then .error (.unexpectedKeyword kv.1)
  else if kv.1 ∈ acc.map Prod.fst then .error (.multipleValues kv.1)
  else .ok (acc ++ [kv])

/-- The `for k, v in kwargs.items()` loop of lines 175-184. -/
def fold_kwargs (param_names : List String) (acc : List (String × PyVal)) :
    List (String × PyVal) → Except BatchArgsError (List (String × PyVal))
  | [] => .ok acc
  | kv :: rest =>
      match addKwarg param_names acc kv with
      | .error e => .error e
      | .ok acc1 => fold_kwargs param_names acc1 rest

/-- Lines 166-184 for one invocation of the batch: check the arity
(`len(args) + len(kwargs) == len(param_names)`), assign the positional
arguments to the leading parameter names, then fold the keyword
arguments. -/
def kwargs_for_input (param_names : List String) (inp : FunctionInputArgs) :
    Except BatchArgsError (List (String × PyVal)) :=
  if inp.args.length + inp.kwargs.length ≠ param_names.length then
    .error .wrongArgCount
  else fold_kwargs param_names (param_names.zip inp.args) inp.kwargs

/-- The `for i, (args, kwargs) in enumerate(deserialized_args)` loop
(lines 166-184): the first invalid invocation raises. -/
def kwargs_by_inputs (param_names : List String) :
    List FunctionInputArgs →
      Except BatchArgsError (List (List (String × PyVal)))
  | [] => .ok []
  | inp :: rest =>
      match kwargs_for_input param_names inp with
      | .error e => .error e
      | .ok d =>
          match kwargs_by_inputs param_names rest with
          | .error e => .error e
          | .ok ds => .ok (d :: ds)

/-- `_args_and_kwargs` in the batched case (lines 147-189): aggregate all
inputs into one kwargs dict mapping each parameter name to the list of its
values across the batch (lines 186-188). -/
def _args_and_kwargs (param_names : List String)
    (inputs : List FunctionInputArgs) :
    Except BatchArgsError (List (String × List (Option PyVal))) :=
  match kwargs_by_inputs param_names inputs with
  | .error e => .error e
  | .ok ds => .ok (param_names.map (fun p => (p, ds.map (fun d => d.lookup p))))

/-! ## Results and output push (source lines 673-703, 764-839, 851-875) -/

inductive GenericStatus where
  | success
  | failure
  | terminated
  deriving DecidableEq, Repr

/-- A `GenericResult` as far as the claims inspect it: its status and, for
a success, the output value it carries.  (The serialized exception payload
and traceback attached to failures live in `modal._serialization`, outside
the embedded sources, and are not inspected by any claim.) -/
structure GenericResult where
  status : GenericStatus
  data : Option PyVal

/-- The per-input `FAILURE` results broadcast by the generic exception
branch of `handle_input_exception` (lines 795-839): one result per id in
`io_context.input_ids`. -/
def handle_input_exception_results (input_ids : List String) :
    List GenericResult :=
  input_ids.map (fun _ => { status := .failure, data := none })

/-- The two `InvalidError` raises of `validate_output_data`
(lines 198-209). -/
inductive OutputValidationError where
  | notAList
  | lengthMismatch
  deriving DecidableEq, Repr

/-- `validate_output_data` (lines 198-209): a non-batched context wraps the
value in a singleton list; a batched context requires a list of the same
length as `input_ids`. -/
def validate_output_data (is_batched : Bool) (input_ids : List String)
    (data : PyVal) : Except OutputValidationError (List PyVal) :=
  if is_batched = false then .ok [data]
  else
    match data with
    | .atom _ => .error .notAList
    | .listV xs =>
        if xs.length ≠ input_ids.length then .error .lengthMismatch
        else .ok xs

/-- One `FunctionPutOutputsItem` as composed by `_push_outputs`
(lines 682-692); the timestamps and data format are not inspected by any
claim. -/
structure FunctionPutOutputsItem where
  input_id : String
  retry_count : Int
  result : GenericResult

/-- The item list of `_push_outputs` (lines 682-692):
`zip(io_context.input_ids, io_context.retry_counts, results)`. -/
def _push_outputs (input_ids : List String) (retry_counts : List Int)
    (results : List GenericResult) : List FunctionPutOutputsItem :=
  (input_ids.zip (retry_counts.zip results)).map
    (fun x => { input_id := x.1, retry_count := x.2.1, result := x.2.2 })

/-- `push_outputs` (lines 851-875) run under `handle_input_exception`
(lines 764-839): an `InvalidError` escaping `validate_output_data` is
caught there and broadcast as one `FAILURE` result per input id; on
success every validated value becomes a `GENERIC_STATUS_SUCCESS` result
and the items are composed by `_push_outputs`. -/
def push_outputs (is_batched : Bool) (input_ids : List String)
    (retry_counts : List Int) (data : PyVal) :
    Except (List GenericResult) (List FunctionPutOutputsItem) :=
  match validate_output_data is_batched input_ids data with
  | .error _ => .error (handle_input_exception_results input_ids)
  | .ok ds =>
      .ok (_push_outputs input_ids retry_counts
        (ds.map (fun d => { status := .success, data := some d })))

/-- `call_finalized_function`'s argument aggregation run under
`handle_input_exception`: an `InvalidError` raised by `_args_and_kwargs`
is broadcast as one `FAILURE` result per input id. -/
def run_batched_args (param_names : List String)
    (inputs : List FunctionInputArgs) (input_ids : List String) :
    Except (List GenericResult) (List (String × List (Option PyVal))) :=
  match _args_and_kwargs param_names inputs with
  | .error _ => .error (handle_input_exception_results input_ids)
  | .ok v => .ok v

/-- The batched-argument invariant of claim C5: an invocation violates it
when its arity differs from the declared parameter count, or it supplies a
keyword that is not a parameter name, or it supplies a parameter both
positionally (one of the first `len(args)` parameter names) and by
keyword. -/
def invocationViolation (param_names : List String)
    (inp : FunctionInputArgs) : Prop :=
  inp.args.length + inp.kwargs.length ≠ param_names.length
  ∨ (∃ kv ∈ inp.kwargs, kv.1 ∉ param_names)
  ∨ (∃ kv ∈ inp.kwargs, kv.1 ∈ param_names.take inp.args.length)

instance (param_names : List String) (inp : FunctionInputArgs) :
    Decidable (invocationViolation param_names inp) := by
  unfold invocationViolation; infer_instance

theorem addKwarg_ok (param_names : List String)
    (acc acc1 : List (String × PyVal)) (kv : String × PyVal)
    (h : addKwarg param_names acc kv = .ok acc1) :
    kv.1 ∈ param_names ∧ kv.1 ∉ acc.map Prod.fst ∧ acc1 = acc ++ [kv] := by
  unfold addKwarg at h
  by_cases h1 : kv.1 ∈ param_names
  · by_cases h2 : kv.1 ∈ acc.map Prod.fst
    · simp [h1, h2] at h
    · simp [h1, h2] at h
      exact ⟨h1, h2, h.symm⟩
  · simp [h1] at h

theorem fold_kwargs_ok (param_names : List String) :
    ∀ (kwargs acc res : List (String × PyVal)),
      fold_kwargs param_names acc kwargs = .ok res →
      ∀ kv ∈ kwargs, kv.1 ∈ param_names ∧ kv.1 ∉ acc.map Prod.fst := by
  intro kwargs
  induction kwargs with
  | nil =>
      intro acc res _ kv hkv
      exact absurd hkv (List.not_mem_nil kv)
  | cons kv0 rest ih =>
      intro acc res h kv hkv
      unfold fold_kwargs at h
      cases hstep : addKwarg param_names acc kv0 with
      | error e => rw [hstep] at h; exact absurd h (by simp)
      | ok acc1 =>
          rw [hstep] at h
          obtain ⟨hp, hnin, rfl⟩ := addKwarg_ok param_names acc acc1 kv0 hstep
          rcases List.mem_cons.mp hkv with rfl | hkv2
          · exact ⟨hp, hnin⟩
          · have h2 := ih (acc ++ [kv0]) res h kv hkv2
            refine ⟨h2.1, fun hin => h2.2 ?_⟩
            simp [hin]

theorem map_fst_zip_eq_take (l1 : List String) :
    ∀ l2 : List PyVal, (l1.zip l2).map Prod.fst = l1.take l2.length := by
  induction l1 with
  | nil => intro l2; simp
  | cons a l ih =>
      intro l2
      cases l2 with
      | nil => simp
      | cons b m => simp [ih m]

theorem kwargs_for_input_error (param_names : List String)
    (inp : FunctionInputArgs)
    (hv : invocationViolation param_names inp) :
    ∃ e, kwargs_for_input param_names inp = .error e := by
  unfold kwargs_for_input
  by_cases hcount : inp.args.length + inp.kwargs.length ≠ param_names.length
  · exact ⟨.wrongArgCount, by simp [hcount]⟩
  · rw [not_ne_iff] at hcount
    simp only [hcount, ne_eq, not_true_eq_false, if_false]
    cases hres : fold_kwargs param_names (param_names.zip inp.args) inp.kwargs with
    | error e => exact ⟨e, rfl⟩
    | ok res =>
        exfalso
        have hall := fold_kwargs_ok param_names inp.kwargs _ res hres
        rcases hv with h1 | h2 | h3
        · exact h1 hcount
        · obtain ⟨kv, hmem, hnot⟩ := h2
          exact hnot (hall kv hmem).1
        · obtain ⟨kv, hmem, hin⟩ := h3
          apply (hall kv hmem).2
          rw [map_fst_zip_eq_take]
          exact hin

theorem kwargs_by_inputs_error (param_names : List String) :
    ∀ inputs : List FunctionInputArgs,
      (∃ inp ∈ inputs, ∃ e, kwargs_for_input param_names inp = .error e) →
      ∃ e, kwargs_by_inputs param_names inputs = .error e := by
  intro inputs
  induction inputs with
  | nil =>
      rintro ⟨inp, hmem, _⟩
      exact absurd hmem (List.not_mem_nil inp)
  | cons a rest ih =>
      rintro ⟨inp, hmem, e, herr⟩
      unfold kwargs_by_inputs
      rcases List.mem_cons.mp hmem with rfl | hmem2
      · rw [herr]
        exact ⟨e, rfl⟩
      · cases hfi : kwargs_for_input param_names a with
        | error e2 => exact ⟨e2, rfl⟩
        | ok d =>
            obtain ⟨e3, h3⟩ := ih ⟨inp, hmem2, e, herr⟩
            rw [h3]
            exact ⟨e3, rfl⟩

/-- Claim C5: if any invocation of a batched `IOContext` supplies a number
of positional-plus-keyword arguments different from the declared parameter
count, or a keyword not among the parameter names, or the same parameter
both positionally and by keyword, then `_args_and_kwargs` raises a single
`InvalidError` and one structured `FAILURE` result is produced for every
input id in the batch. -/
theorem C5_batch_invalid_broadcast (param_names : List String)
    (inputs : List FunctionInputArgs) (input_ids : List String)
    (hv : ∃ inp ∈ inputs, invocationViolation param_names inp) :
    (∃ e, _args_and_kwargs param_names inputs = .error e) ∧
    ∃ rs, run_batched_args param_names inputs input_ids = .error rs ∧
      rs.length = input_ids.length ∧
      ∀ r ∈ rs, r.status = GenericStatus.failure := by
  obtain ⟨inp, hmem, hviol⟩ := hv
  obtain ⟨e, he⟩ := kwargs_for_input_error param_names inp hviol
  obtain ⟨e2, he2⟩ := kwargs_by_inputs_error param_names inputs ⟨inp, hmem, e, he⟩
  have hargs : _args_and_kwargs param_names inputs = .error e2 := by
    unfold _args_and_kwargs
    rw [he2]
  refine ⟨⟨e2, hargs⟩, handle_input_exception_results input_ids, ?_, ?_, ?_⟩
  · unfold run_batched_args
    rw [hargs]
  · simp [handle_input_exception_results]
  · intro r hr
    simp only [handle_input_exception_results, List.mem_map] at hr
    obtain ⟨_, _, rfl⟩ := hr
    rfl

/-- Witness for C5: a batch of one invocation passing 3 positional
arguments to a 2-parameter function, with two input ids in the batch. -/
theorem C5_batch_invalid_broadcast_witness :
    (∃ e, _args_and_kwargs ["x", "y"]
        [⟨[.atom 1, .atom 2, .atom 3], []⟩] = .error e) ∧
    ∃ rs, run_batched_args ["x", "y"] [⟨[.atom 1, .atom 2, .atom 3], []⟩]
        ["in-1", "in-2"] = .error rs ∧
      rs.length = (["in-1", "in-2"] : List String).length ∧
      ∀ r ∈ rs, r.status = GenericStatus.failure :=
  C5_batch_invalid_broadcast ["x", "y"] [⟨[.atom 1, .atom 2, .atom 3], []⟩]
    ["in-1", "in-2"]
    ⟨⟨[.atom 1, .atom 2, .atom 3], []⟩, List.mem_singleton.mpr rfl,
      Or.inl (by simp)⟩

theorem zip_zip_proj (ids : List String) :
    ∀ (rcs : List Int) (results : List GenericResult),
      results.length = rcs.length →
      (ids.zip (rcs.zip results)).map (fun x => (x.1, x.2.1)) = ids.zip rcs := by
  induction ids with
  | nil => intro rcs results _; simp
  | cons i ids ih =>
      intro rcs results h
      cases rcs with
      | nil => simp
      | cons rc rcs =>
          cases results with
          | nil => simp at h
          | cons r results =>
              simp only [List.zip_cons_cons, List.map_cons]
              rw [ih rcs results (by simpa using h)]

/-- Claim C6: for a batched call over N inputs, a returned list of length
N yields exactly N composed output records, one per input id zipped with
its retry count; a non-list return or a list of a different length makes
`validate_output_data` raise, and then every input in the batch receives a
structured `FAILURE` result. -/
theorem C6_batched_output_shape (input_ids : List String)
    (retry_counts : List Int) (data : PyVal)
    (hlen : retry_counts.length = input_ids.length) :
    (∀ xs, data = PyVal.listV xs → xs.length = input_ids.length →
      validate_output_data true input_ids data = .ok xs ∧
      ∃ items, push_outputs true input_ids retry_counts data = .ok items ∧
        items.length = input_ids.length ∧
        items.map (fun it => (it.input_id, it.retry_count))
          = input_ids.zip retry_counts) ∧
    (∀ a, data = PyVal.atom a →
      ∃ rs, push_outputs true input_ids retry_counts data = .error rs ∧
        rs.length = input_ids.length ∧
        ∀ r ∈ rs, r.status = GenericStatus.failure) ∧
    (∀ xs, data = PyVal.listV xs → xs.length ≠ input_ids.length →
      ∃ rs, push_outputs true input_ids retry_counts data = .error rs ∧
        rs.length = input_ids.length ∧
        ∀ r ∈ rs, r.status = GenericStatus.failure) := by
  have herr : ∀ rs, rs = handle_input_exception_results input_ids →
      rs.length = input_ids.length ∧
        ∀ r ∈ rs, r.status = GenericStatus.failure := by
    rintro rs rfl
    constructor
    · simp [handle_input_exception_results]
    · intro r hr
      simp only [handle_input_exception_results, List.mem_map] at hr
      obtain ⟨_, _, rfl⟩ := hr
      rfl
  refine ⟨?_, ?_, ?_⟩
  · rintro xs rfl hxs
    have hval : validate_output_data true input_ids (PyVal.listV xs) = .ok xs := by
      simp [validate_output_data, hxs]
    refine ⟨hval,
      _push_outputs input_ids retry_counts
        (xs.map (fun d => { status := .success, data := some d })),
      ?_, ?_, ?_⟩
    · unfold push_outputs
      rw [hval]
    · unfold _push_outputs
      simp [hlen, hxs]
    · unfold _push_outputs
      rw [List.map_map]
      exact zip_zip_proj input_ids retry_counts _ (by simp [hlen, hxs])
  · rintro a rfl
    refine ⟨handle_input_exception_results input_ids, ?_,
      herr _ rfl⟩
    unfold push_outputs validate_output_data
    simp
  · rintro xs rfl hxs
    refine ⟨handle_input_exception_results input_ids, ?_,
      herr _ rfl⟩
    unfold push_outputs validate_output_data
    simp [hxs]

/-- Witness for C6 over the batch `ids = [a, b]`, retry counts `[0, 1]`:
the correctly-shaped output `[5, 7]` gives two records zipped with the
retry counts, and the miss-shapen outputs (a non-list, and a singleton
list) give two `FAILURE` results. -/
theorem C6_batched_output_shape_witness :
    (∃ items, push_outputs true ["a", "b"] [0, 1]
        (.listV [.atom 5, .atom 7]) = .ok items ∧
      items.length = 2 ∧
      items.map (fun it => (it.input_id, it.retry_count))
        = [("a", 0), ("b", 1)]) ∧
    (∃ rs, push_outputs true ["a", "b"] [0, 1] (.atom 5) = .error rs ∧
      rs.length = 2 ∧ ∀ r ∈ rs, r.status = GenericStatus.failure) ∧
    (∃ rs, push_outputs true ["a", "b"] [0, 1] (.listV [.atom 5])
        = .error rs ∧
      rs.length = 2 ∧ ∀ r ∈ rs, r.status = GenericStatus.failure) := by
  have h := C6_batched_output_shape ["a", "b"] [0, 1] (.listV [.atom 5, .atom 7])
    (by simp)
  have h2 := C6_batched_output_shape ["a", "b"] [0, 1] (.atom 5) (by simp)
  have h3 := C6_batched_output_shape ["a", "b"] [0, 1] (.listV [.atom 5])
    (by simp)
  refine ⟨?_, ?_, ?_⟩
  · obtain ⟨-, items, hi, hl, hm⟩ := h.1 [.atom 5, .atom 7] rfl (by simp)
    exact ⟨items, hi, hl, hm⟩
  · exact h2.2.1 5 rfl
  · exact h3.2.2 [.atom 5] rfl (by simp)

/-! ## Generator output sink (source lines 496-566)

How many queued messages are coalesced into one `put_data_out` call is
decided by queue timing and the 16 MiB bound, so the model takes the
chunking of the message stream as given; the index bookkeeping of
`generator_output_task` is independent of it: `index` starts at 1 and
advances by `len(serialized_messages)` after each call (line 558). -/

/-- The start indices handed to `put_data_out` by `generator_output_task`
(lines 533-558), one per chunk, beginning at the given `index`. -/
def generator_chunk_starts {M : Type} : Nat → List (List M) → List Nat
  | _, [] => []
  | index, chunk :: rest =>
      index :: generator_chunk_starts (index + chunk.length) rest

/-- `put_data_out` (lines 496-516) assigns message `i` of a chunk the
`DataChunk` index `start_index + i`. -/
def put_data_out_indices {M : Type} (start_index : Nat)
    (serialized_messages : List M) : List Nat :=
  (List.range serialized_messages.length).map (fun i => start_index + i)

/-- All message indices of one function call, in send order. -/
def generator_message_indices {M : Type} : Nat → List (List M) → List Nat
  | _, [] => []
  | index, chunk :: rest =>
      put_data_out_indices index chunk
        ++ generator_message_indices (index + chunk.length) rest

theorem generator_chunk_starts_get {M : Type} (chunks : List (List M)) :
    ∀ start k, (generator_chunk_starts start chunks)[k]?
      = if k < chunks.length
        then some (start + ((chunks.take k).map List.length).sum)
        else none := by
  induction chunks with
  | nil => intro start k; simp [generator_chunk_starts]
  | cons c rest ih =>
      intro start k
      cases k with
      | zero => simp [generator_chunk_starts]
      | succ k =>
          simp only [generator_chunk_starts, List.getElem?_cons_succ,
            ih (start + c.length) k, List.length_cons, List.take_succ_cons,
            List.map_cons, List.sum_cons]
          by_cases hk : k < rest.length
          · have hk2 : k + 1 < rest.length + 1 := by omega
            simp [hk, hk2, Nat.add_assoc]
          · have hk2 : ¬ (k + 1 < rest.length + 1) := by omega
            simp [hk, hk2]

theorem generator_message_indices_eq {M : Type} (chunks : List (List M)) :
    ∀ start, generator_message_indices start chunks
      = (List.range ((chunks.map List.length).sum)).map (fun i => start + i) := by
  induction chunks with
  | nil => intro start; simp [generator_message_indices]
  | cons c rest ih =>
      intro start
      simp only [generator_message_indices, put_data_out_indices, ih,
        List.map_cons, List.sum_cons, List.range_add, List.map_append,
        List.map_map]
      congr 1
      apply List.map_congr_left
      intro i _
      simp only [Function.comp_apply]
      omega

theorem generator_chunk_starts_head {M : Type} (c : List M)
    (rest : List (List M)) (start : Nat) :
    (generator_chunk_starts start (c :: rest)).head? = some start := rfl

theorem generator_chunk_starts_chain {M : Type} (chunks : List (List M))
    (hne : ∀ c ∈ chunks, c ≠ []) :
    ∀ start, List.Chain' (· < ·) (generator_chunk_starts start chunks) := by
  induction chunks with
  | nil => intro start; simp [generator_chunk_starts]
  | cons c rest ih =>
      intro start
      rw [generator_chunk_starts, List.chain'_cons']
      constructor
      · intro b hb
        cases rest with
        | nil => simp [generator_chunk_starts] at hb
        | cons c1 rest1 =>
            rw [generator_chunk_starts_head, Option.mem_some_iff] at hb
            have hc : c ≠ [] := hne c (List.mem_cons_self c _)
            have hlen : 0 < c.length := List.length_pos.mpr hc
            omega
      · exact ih (fun d hd => hne d (List.mem_cons_of_mem c hd)) _

/-- Claim C7: for every generator function call, the chunk indices
assigned by the generator output sink start at 1 and are strictly
monotonically increasing: the first message of the call has index 1 (the
message-level indices are exactly 1, 2, ..., total), and each chunk's
start index equals 1 plus the total number of messages sent in all earlier
chunks of that call. -/
theorem C7_generator_indices {M : Type} (chunks : List (List M))
    (hne : ∀ c ∈ chunks, c ≠ []) :
    (∀ k, (generator_chunk_starts 1 chunks)[k]?
        = if k < chunks.length
          then some (1 + ((chunks.take k).map List.length).sum)
          else none) ∧
    generator_message_indices 1 chunks
      = (List.range ((chunks.map List.length).sum)).map (fun i => 1 + i) ∧
    (chunks ≠ [] → (generator_message_indices 1 chunks).head? = some 1) ∧
    List.Chain' (· < ·) (generator_chunk_starts 1 chunks) := by
  refine ⟨fun k => generator_chunk_starts_get chunks 1 k,
    generator_message_indices_eq chunks 1, ?_,
    generator_chunk_starts_chain chunks hne 1⟩
  intro hchunks
  cases chunks with
  | nil => exact absurd rfl hchunks
  | cons c rest =>
      have hc : c ≠ [] := hne c (List.mem_cons_self c _)
      cases c with
      | nil => exact absurd rfl hc
      | cons m ms =>
          simp [generator_message_indices, put_data_out_indices,
            List.range_succ_eq_map]

/-- Witness for C7 on the concrete chunking `[[0], [0, 0], [0]]`: the
start indices are `[1, 2, 4]` and the message indices are `1, 2, 3, 4`. -/
theorem C7_generator_indices_witness :
    generator_chunk_starts 1 ([[0], [0, 0], [0]] : List (List Nat))
        = [1, 2, 4] ∧
    generator_message_indices 1 ([[0], [0, 0], [0]] : List (List Nat))
      = (List.range ((([[0], [0, 0], [0]] : List (List Nat)).map
          List.length).sum)).map (fun i => 1 + i) ∧
    List.Chain' (· < ·)
      (generator_chunk_starts 1 ([[0], [0, 0], [0]] : List (List Nat))) := by
  have h := C7_generator_indices ([[0], [0, 0], [0]] : List (List Nat))
    (by decide)
  exact ⟨rfl, h.2.1, h.2.2.2⟩

/-! ## Heartbeat / memory-snapshot interlock (source lines 402-426, 926-958)

asyncio is cooperative: a task is preempted only at an await point, so the
interleaving of `_heartbeat_handle_cancellations` and `memory_snapshot` is
modelled by a step relation whose atomic steps are the code fragments
between awaits.  Both functions wrap their bodies in
`async with self.heartbeat_condition`; the condition's lock is mutually
exclusive, `wait()` releases it and parks until a `notify_all`, then
re-acquires it before returning. -/

/-- Program counter of the heartbeat task around one call to
`_heartbeat_handle_cancellations`. -/
inductive HeartbeatPc where
  | idle
  | check
  | waiting
  | ready
  | send
  deriving DecidableEq, Repr

/-- Program counter of the snapshot task inside `memory_snapshot`. -/
inductive SnapshotPc where
  | idle
  | locked
  | working
  | done
  deriving DecidableEq, Repr

inductive LockHolder where
  | heartbeatTask
  | snapshotTask
  deriving DecidableEq, Repr

/-- The shared state: the `_waiting_for_memory_snapshot` flag, the owner of
the `heartbeat_condition` lock (if any), and the two program counters.
`hpc`: `idle` = outside the `async with` of lines 405-416; `check` =
holding the lock at the `while self._waiting_for_memory_snapshot` test of
line 410; `waiting` = parked in `heartbeat_condition.wait()` (line 411)
with the lock released; `ready` = notified and re-acquiring the lock;
`send` = holding the lock with the `ContainerHeartbeat` request of lines
413-416 on the wire.  `spc`: `idle` = before the `async with` of line 934;
`locked` = holding the lock before setting the flag (lines 935-940);
`working` = flag set and broadcast (lines 944-945) with the checkpoint
RPC, client close and restore of lines 947-954 in flight, still holding
the lock; `done` = flag cleared and broadcast (lines 957-958), lock
released. -/
structure SnapshotSystem where
  waiting_for_memory_snapshot : Bool
  lock : Option LockHolder
  hpc : HeartbeatPc
  spc : SnapshotPc
  deriving DecidableEq, Repr

/-- `heartbeat_condition.notify_all()` (lines 945 and 958) moves a parked
heartbeat task to the re-acquiring state. -/
def notifyAll (h : HeartbeatPc) : HeartbeatPc :=
  if h = .waiting then .ready else h

/-- The interleaved small-step semantics of the heartbeat tick and
`memory_snapshot`. -/
inductive SnapshotStep : SnapshotSystem → SnapshotSystem → Prop where
  | h_acquire (f : Bool) (sp : SnapshotPc) :
      SnapshotStep ⟨f, none, .idle, sp⟩ ⟨f, some .heartbeatTask, .check, sp⟩
  | h_wait (sp : SnapshotPc) :
      SnapshotStep ⟨true, some .heartbeatTask, .check, sp⟩
        ⟨true, none, .waiting, sp⟩
  | h_send (sp : SnapshotPc) :
      SnapshotStep ⟨false, some .heartbeatTask, .check, sp⟩
        ⟨false, some .heartbeatTask, .send, sp⟩
  | h_finish (f : Bool) (sp : SnapshotPc) :
      SnapshotStep ⟨f, some .heartbeatTask, .send, sp⟩ ⟨f, none, .idle, sp⟩
  | h_reacquire (f : Bool) (sp : SnapshotPc) :
      SnapshotStep ⟨f, none, .ready, sp⟩ ⟨f, some .heartbeatTask, .check, sp⟩
  | s_acquire (f : Bool) (hp : HeartbeatPc) :
      SnapshotStep ⟨f, none, hp, .idle⟩ ⟨f, some .snapshotTask, hp, .locked⟩
  | s_set_flag (f : Bool) (hp : HeartbeatPc) :
      SnapshotStep ⟨f, some .snapshotTask, hp, .locked⟩
        ⟨true, some .snapshotTask, notifyAll hp, .working⟩
  | s_clear_flag (f : Bool) (hp : HeartbeatPc) :
      SnapshotStep ⟨f, some .snapshotTask, hp, .working⟩
        ⟨false, none, notifyAll hp, .done⟩

/-- Initial states: both tasks outside their critical sections, the lock
free; `heartbeats(wait_for_mem_snap)` (line 433) may have set the flag to
either value. -/
def SnapshotInit (s : SnapshotSystem) : Prop :=
  s.lock = none ∧ s.hpc = .idle ∧ s.spc = .idle

inductive SnapshotReachable : SnapshotSystem → Prop where
  | init (s : SnapshotSystem) (h : SnapshotInit s) : SnapshotReachable s
  | step (s t : SnapshotSystem) (hs : SnapshotReachable s)
      (hst : SnapshotStep s t) : SnapshotReachable t

/-- The inductive invariant: each task holds the lock throughout its
critical section, and the heartbeat task reaches the send state only with
the flag down. -/
def SnapshotInv (s : SnapshotSystem) : Prop :=
  ((s.hpc = .check ∨ s.hpc = .send) → s.lock = some .heartbeatTask) ∧
  ((s.spc = .locked ∨ s.spc = .working) → s.lock = some .snapshotTask) ∧
  (s.hpc = .send → s.waiting_for_memory_snapshot = false)

theorem snapshotInv_init (s : SnapshotSystem) (h : SnapshotInit s) :
    SnapshotInv s := by
  obtain ⟨hl, hh, hsp⟩ := h
  refine ⟨fun hc => ?_, fun hc => ?_, fun hc => ?_⟩
  · rw [hh] at hc
    rcases hc with hc | hc <;> exact absurd hc (by decide)
  · rw [hsp] at hc
    rcases hc with hc | hc <;> exact absurd hc (by decide)
  · rw [hh] at hc
    exact absurd hc (by decide)

theorem snapshotInv_step (s t : SnapshotSystem) (hs : SnapshotInv s)
    (hst : SnapshotStep s t) : SnapshotInv t := by
  obtain ⟨h1, h2, h3⟩ := hs
  cases hst with
  | h_acquire f sp =>
      refine ⟨fun _ => rfl, fun hsp => absurd (h2 hsp) (by simp),
        fun h => by cases h⟩
  | h_wait sp =>
      refine ⟨fun h => ?_, fun hsp => absurd (h2 hsp) (by simp),
        fun h => by cases h⟩
      rcases h with h | h <;> cases h
  | h_send sp =>
      exact ⟨fun _ => rfl, fun hsp => absurd (h2 hsp) (by simp),
        fun _ => rfl⟩
  | h_finish f sp =>
      refine ⟨fun h => ?_, fun hsp => absurd (h2 hsp) (by simp),
        fun h => by cases h⟩
      rcases h with h | h <;> cases h
  | h_reacquire f sp =>
      refine ⟨fun _ => rfl, fun hsp => absurd (h2 hsp) (by simp),
        fun h => by cases h⟩
  | s_acquire f hp =>
      refine ⟨fun h => absurd (h1 h) (by simp), fun _ => rfl,
        fun h => absurd (h1 (Or.inr h)) (by simp)⟩
  | s_set_flag f hp =>
      refine ⟨fun h => ?_, fun _ => rfl, fun h => ?_⟩
      · have hhp : hp = .check ∨ hp = .send := by
          cases hp
          · simp [notifyAll] at h
          · exact Or.inl rfl
          · simp [notifyAll] at h
          · simp [notifyAll] at h
          · exact Or.inr rfl
        exact absurd (h1 hhp) (by simp)
      · have hhp : hp = .send := by
          cases hp
          · simp [notifyAll] at h
          · simp [notifyAll] at h
          · simp [notifyAll] at h
          · simp [notifyAll] at h
          · rfl
        exact absurd (h1 (Or.inr hhp)) (by simp)
  | s_clear_flag f hp =>
      refine ⟨fun h => ?_, fun hsp => ?_, fun _ => rfl⟩
      · have hhp : hp = .check ∨ hp = .send := by
          cases hp
          · simp [notifyAll] at h
          · exact Or.inl rfl
          · simp [notifyAll] at h
          · simp [notifyAll] at h
          · exact Or.inr rfl
        exact absurd (h1 hhp) (by simp)
      · rcases hsp with h | h <;> cases h

/-- Claim C1: in every execution of the heartbeat loop interleaved with
`memory_snapshot`, the `ContainerHeartbeat` request step is reachable only
in states where `_waiting_for_memory_snapshot` is false — the tick
re-checks the flag in a wait loop under the heartbeat condition before
sending, and the flag is only mutated under the same lock. -/
theorem snapshotInv_reachable (s : SnapshotSystem)
    (h : SnapshotReachable s) : SnapshotInv s := by
  induction h with
  | init s h => exact snapshotInv_init s h
  | step s t hs hst ih => exact snapshotInv_step s t ih hst

/-- Claim C1 main theorem (see the doc comment restated below). -/
theorem C1_no_heartbeat_during_snapshot (s : SnapshotSystem)
    (hreach : SnapshotReachable s) (hsend : s.hpc = HeartbeatPc.send) :
    s.waiting_for_memory_snapshot = false :=
  (snapshotInv_reachable s hreach).2.2 hsend

/-- Witness for C1: the concrete reachable state in which the heartbeat
task holds the condition lock with the request on the wire, reached from
an initial state by acquiring the lock and passing the flag check. -/
theorem C1_no_heartbeat_during_snapshot_witness :
    (⟨false, some .heartbeatTask, .send, .idle⟩ :
      SnapshotSystem).waiting_for_memory_snapshot = false :=
  C1_no_heartbeat_during_snapshot _
    (SnapshotReachable.step _ _
      (SnapshotReachable.step _ _
        (SnapshotReachable.init ⟨false, none, .idle, .idle⟩ ⟨rfl, rfl, rfl⟩)
        (SnapshotStep.h_acquire false .idle))
      (SnapshotStep.h_send .idle))
    rfl

end ContainerIO
